import Mathlib

/-!
Verification of the reviewer-assignment service of `avito_internship`
(`internal/domain/service/service.go`), shallowly embedded in Lean 4.

The storage collaborator is modelled by passing its answers explicitly:
the result of `GetReviewCounts` is an `Option (String → Nat)` (`none`
models a storage failure; a Go map lookup defaults to 0 for missing
keys, hence a total function), the process-wide random generator is
modelled by a natural number `k` (the code indexes a list at
`rng.Intn n ∈ [0, n)`, which we render as `k % n`), and `rng.Shuffle`
is modelled by a `shuffle` parameter that the theorems only constrain
to permute its input.
-/

namespace AvitoReview

/-- Model of `models.User` from `internal/domain/models/models.go`. -/
structure User where
  userID : String
  username : String
  teamName : String
  isActive : Bool
deriving DecidableEq, Repr

/-- Model of `models.PullRequestStatus`: OPEN or MERGED. -/
inductive PRStatus where
  | statusOpen
  | statusMerged
deriving DecidableEq, Repr

/-- Model of `models.PullRequest`; timestamps are modelled as naturals. -/
structure PullRequest where
  pullRequestID : String
  pullRequestName : String
  authorID : String
  status : PRStatus
  assignedReviewers : List String
  createdAt : Option Nat
  mergedAt : Option Nat
deriving DecidableEq, Repr

/-- Model of `models.ErrorCode`. -/
inductive ErrorCode where
  | errTeamExists
  | errPRExists
  | errPRMerged
  | errNotAssigned
  | errNoCandidate
  | errNotFound
deriving DecidableEq, Repr

/-- Model of `service.ServiceError`. -/
structure ServiceError where
  code : ErrorCode
  message : String
deriving DecidableEq, Repr

/-- The candidate filter of `assignReviewers` (service.go:230-235):
active members whose id differs from the author id. -/
def candidatesOf (teamMembers : List User) (authorID : String) : List User :=
  teamMembers.filter (fun m => m.isActive && m.userID ≠ authorID)

/-- Model of `randomSelection` (service.go:315-333).  If at most `maxCount`
candidates exist they are all returned in order; otherwise the slice is
shuffled by the rng and the first `maxCount` ids are taken.  The rng
shuffle is the `shuffle` parameter. -/
def randomSelection (shuffle : List User → List User)
    (candidates : List User) (maxCount : Nat) : List String :=
  if candidates.length ≤ maxCount then
    candidates.map (fun c => c.userID)
  else
    ((shuffle candidates).take maxCount).map (fun c => c.userID)

/-- The non-strict order in which `sort.Slice` (service.go:246-253)
leaves the candidate slice: ascending review count, ties broken by
ascending user id.  `leCand f a b` holds iff the Go comparator does not
put `b` strictly before `a`. -/
def leCand (f : String → Nat) (a b : User) : Prop :=
  f a.userID < f b.userID ∨ (f a.userID = f b.userID ∧ a.userID ≤ b.userID)

instance (f : String → Nat) : DecidableRel (leCand f) := fun a b => by
  unfold leCand; infer_instance

instance (f : String → Nat) : IsTotal User (leCand f) where
  total a b := by
    unfold leCand
    rcases Nat.lt_trichotomy (f a.userID) (f b.userID) with h | h | h
    · exact Or.inl (Or.inl h)
    · rcases le_total a.userID b.userID with h2 | h2
      · exact Or.inl (Or.inr ⟨h, h2⟩)
      · exact Or.inr (Or.inr ⟨h.symm, h2⟩)
    · exact Or.inr (Or.inl h)

instance (f : String → Nat) : IsTrans User (leCand f) where
  trans a b c hab hbc := by
    unfold leCand at *
    rcases hab with h1 | ⟨h1, h1id⟩
    · rcases hbc with h2 | ⟨h2, _⟩
      · exact Or.inl (h1.trans h2)
      · exact Or.inl (h2 ▸ h1)
    · rcases hbc with h2 | ⟨h2, h2id⟩
      · exact Or.inl (h1 ▸ h2)
      · exact Or.inr ⟨h1.trans h2, le_trans h1id h2id⟩

/-- Model of `assignReviewers` (service.go:227-261).  `counts` is the result of
`repo.GetReviewCounts` on the candidate ids (`none` = storage error,
which triggers the random fallback). -/
def assignReviewers (shuffle : List User → List User)
    (teamMembers : List User) (authorID : String)
    (counts : Option (String → Nat)) : List String :=
  let candidates := candidatesOf teamMembers authorID
  if candidates.length = 0 then
    []
  else
    match counts with
    | none => randomSelection shuffle candidates 2
    | some f =>
        ((candidates.insertionSort (leCand f)).take 2).map (fun c => c.userID)

/-- The excluded set of `findReplacement` (service.go:264-268):
the author and every currently assigned reviewer. -/
def excluded (authorID : String) (currentReviewers : List String)
    (id : String) : Bool :=
  id = authorID || currentReviewers.contains id

/-- The candidate filter of `findReplacement` (service.go:270-275):
active members outside the excluded set. -/
def replacementCandidates (teamMembers : List User) (authorID : String)
    (currentReviewers : List String) : List User :=
  teamMembers.filter (fun m => m.isActive && !(excluded authorID currentReviewers m.userID))

/-- The minimum-count loop of `findReplacement` (service.go:293-303),
threading the pair `(minCount, selected)`; `none` models the `-1`
sentinel (review counts are cardinalities, hence naturals). -/
def tieLoop (f : String → Nat) :
    List User → Option Nat → List User → Option Nat × List User
  | [], m, sel => (m, sel)
  | c :: cs, m, sel =>
      match m with
      | none => tieLoop f cs (some (f c.userID)) [c]
      | some mc =>
          if f c.userID < mc then tieLoop f cs (some (f c.userID)) [c]
          else if f c.userID = mc then tieLoop f cs (some mc) (sel ++ [c])
          else tieLoop f cs (some mc) sel

/-- The tie group of minimum-load candidates computed by the loop. -/
def tieGroup (f : String → Nat) (candidates : List User) : List User :=
  (tieLoop f candidates none []).2

/-- Model of `findReplacement` (service.go:263-313).  `counts` is the
`GetReviewCounts` answer, `k` drives the random index. -/
def findReplacement (teamMembers : List User) (authorID : String)
    (currentReviewers : List String) (counts : Option (String → Nat))
    (k : Nat) : Except ServiceError String :=
  let candidates := replacementCandidates teamMembers authorID currentReviewers
  if h : candidates.length = 0 then
    .error ⟨.errNoCandidate, "no active replacement candidate in team"⟩
  else
    match counts with
    | none =>
        .ok (candidates.get ⟨k % candidates.length,
          Nat.mod_lt k (Nat.pos_of_ne_zero h)⟩).userID
    | some f =>
        let selected := tieGroup f candidates
        if h2 : selected.length > 0 then
          .ok (selected.get ⟨k % selected.length, Nat.mod_lt k h2⟩).userID
        else
          .error ⟨.errNoCandidate, "no active replacement candidate in team"⟩

/-- The storage collaborator visible to `MergePullRequest` and
`ReassignReviewer`: PRs by id, users by id, team rosters by team name,
and the `GetReviewCounts` answer. -/
structure Store where
  prs : String → Option PullRequest
  users : String → Option User
  usersByTeam : String → List User
  counts : Option (String → Nat)

/-- Model of `repo.UpdatePullRequest`: writes the PR at its own id. -/
def Store.updatePR (st : Store) (pr : PullRequest) : Store :=
  { st with prs := fun id => if id = pr.pullRequestID then some pr else st.prs id }

/-- Model of `MergePullRequest` (service.go:138-163); `now` models the clock. -/
def mergePullRequest (st : Store) (prID : String) (now : Nat) :
    Except ServiceError (PullRequest × Store) :=
  match st.prs prID with
  | none => .error ⟨.errNotFound, "PR not found"⟩
  | some pr =>
      if pr.status = .statusMerged then
        .ok (pr, st)
      else
        let pr2 := { pr with status := .statusMerged, mergedAt := some now }
        .ok (pr2, st.updatePR pr2)

/-- Model of `ReassignReviewer` (service.go:165-225); returns the updated PR,
the new reviewer id, and the updated store. -/
def reassignReviewer (st : Store) (prID oldReviewerID : String) (k : Nat) :
    Except ServiceError (PullRequest × String × Store) :=
  match st.prs prID with
  | none => .error ⟨.errNotFound, "PR not found"⟩
  | some pr =>
      if pr.status = .statusMerged then
        .error ⟨.errPRMerged, "cannot reassign on merged PR"⟩
      else
        if oldReviewerID ∈ pr.assignedReviewers then
          match st.users oldReviewerID with
          | none => .error ⟨.errNotFound, "old reviewer not found"⟩
          | some oldReviewer =>
              match findReplacement (st.usersByTeam oldReviewer.teamName)
                  pr.authorID pr.assignedReviewers st.counts k with
              | .error e => .error e
              | .ok newReviewerID =>
                  let idx := pr.assignedReviewers.indexOf oldReviewerID
                  let newList := pr.assignedReviewers.set idx newReviewerID
                  let pr2 := { pr with assignedReviewers := newList }
                  .ok (pr2, newReviewerID, st.updatePR pr2)
        else
          .error ⟨.errNotAssigned, "reviewer is not assigned to this PR"⟩

/-! ### Helper lemmas about the candidate filters -/

theorem mem_candidatesOf {teamMembers : List User} {authorID : String} {m : User} :
    m ∈ candidatesOf teamMembers authorID ↔
      m ∈ teamMembers ∧ m.isActive = true ∧ m.userID ≠ authorID := by
  simp [candidatesOf, List.mem_filter, and_assoc]

theorem candidatesOf_sublist (teamMembers : List User) (authorID : String) :
    List.Sublist (candidatesOf teamMembers authorID) teamMembers :=
  List.filter_sublist teamMembers

theorem mem_replacementCandidates {teamMembers : List User} {authorID : String}
    {currentReviewers : List String} {m : User} :
    m ∈ replacementCandidates teamMembers authorID currentReviewers ↔
      m ∈ teamMembers ∧ m.isActive = true ∧ m.userID ≠ authorID ∧
        m.userID ∉ currentReviewers := by
  simp [replacementCandidates, excluded, List.mem_filter, and_assoc]

/-- Ids of the candidate list stay duplicate-free when the roster ids are. -/
theorem candidatesOf_nodup {teamMembers : List User} {authorID : String}
    (hnd : (teamMembers.map (fun m => m.userID)).Nodup) :
    ((candidatesOf teamMembers authorID).map (fun m => m.userID)).Nodup :=
  hnd.sublist ((candidatesOf_sublist teamMembers authorID).map _)

/-! ### C2 -/

/-- C2: when no team member is both active and distinct from the author,
`assignReviewers` returns the empty list (and cannot fail: its Go
signature has no error result). -/
theorem assignReviewers_empty_candidates (shuffle : List User → List User)
    (teamMembers : List User) (authorID : String) (counts : Option (String → Nat))
    (h : ∀ m ∈ teamMembers, ¬(m.isActive = true ∧ m.userID ≠ authorID)) :
    assignReviewers shuffle teamMembers authorID counts = [] := by
  have hc : candidatesOf teamMembers authorID = [] := by
    apply List.filter_eq_nil_iff.mpr
    intro m hm
    simpa using h m hm
  simp [assignReviewers, hc]

/-- Witness for C2 at a concrete roster: an inactive member and the author. -/
theorem assignReviewers_empty_candidates_witness :
    assignReviewers id
      [⟨"u1", "alice", "t", false⟩, ⟨"a", "bob", "t", true⟩] "a" none = [] :=
  assignReviewers_empty_candidates id
    [⟨"u1", "alice", "t", false⟩, ⟨"a", "bob", "t", true⟩] "a" none (by decide)

/-! ### C1 -/

/-- The strict version of the Go comparator: load strictly ascending,
ties broken by strictly ascending user id. -/
def ltCand (f : String → Nat) (a b : User) : Prop :=
  f a.userID < f b.userID ∨ (f a.userID = f b.userID ∧ a.userID < b.userID)

/-- Every `leCand`-sorted list with duplicate-free ids is strictly sorted. -/
theorem pairwise_ltCand_of_sorted {f : String → Nat} {l : List User}
    (hs : l.Pairwise (leCand f))
    (hnd : (l.map (fun m => m.userID)).Nodup) :
    l.Pairwise (ltCand f) := by
  have hne : l.Pairwise (fun a b : User => a.userID ≠ b.userID) :=
    List.pairwise_map.mp hnd
  refine (hs.and hne).imp ?_
  rintro a b ⟨hle, hne2⟩
  rcases hle with h | ⟨h1, h2⟩
  · exact Or.inl h
  · exact Or.inr ⟨h1, lt_of_le_of_ne h2 hne2⟩

/-- C1: with load data available, `assignReviewers` returns exactly the
first `min 2 n` ids of the candidate set sorted by (load asc, id asc);
the result is duplicate-free and excludes the author. -/
theorem assignReviewers_sorted_prefix (shuffle : List User → List User)
    (teamMembers : List User) (authorID : String) (f : String → Nat)
    (hnd : (teamMembers.map (fun m => m.userID)).Nodup) :
    ∃ l : List User,
      List.Perm l (candidatesOf teamMembers authorID) ∧
      l.Pairwise (ltCand f) ∧
      assignReviewers shuffle teamMembers authorID (some f) =
        (l.take 2).map (fun c => c.userID) ∧
      (assignReviewers shuffle teamMembers authorID (some f)).length =
        min 2 (candidatesOf teamMembers authorID).length ∧
      (assignReviewers shuffle teamMembers authorID (some f)).Nodup ∧
      authorID ∉ assignReviewers shuffle teamMembers authorID (some f) := by
  set cands := candidatesOf teamMembers authorID with hcands
  refine ⟨cands.insertionSort (leCand f), List.perm_insertionSort _ _, ?_, ?_⟩
  · have hcnd : ((cands.insertionSort (leCand f)).map (fun m => m.userID)).Nodup := by
      have hperm : List.Perm ((cands.insertionSort (leCand f)).map (fun m => m.userID))
          (cands.map (fun m => m.userID)) :=
        (List.perm_insertionSort _ _).map _
      exact hperm.nodup_iff.mpr (candidatesOf_nodup hnd)
    exact pairwise_ltCand_of_sorted (List.sorted_insertionSort _ _) hcnd
  · have hres : assignReviewers shuffle teamMembers authorID (some f) =
        ((cands.insertionSort (leCand f)).take 2).map (fun c => c.userID) := by
      by_cases h0 : cands.length = 0
      · have : cands = [] := List.length_eq_zero.mp h0
        simp [assignReviewers, ← hcands, this]
      · simp [assignReviewers, ← hcands, h0]
    refine ⟨hres, ?_, ?_, ?_⟩
    · rw [hres]
      have hlen : (cands.insertionSort (leCand f)).length = cands.length :=
        (List.perm_insertionSort _ _).length_eq
      simp [List.length_take, hlen]
    · rw [hres]
      have hcnd : ((cands.insertionSort (leCand f)).map (fun m => m.userID)).Nodup := by
        have hperm : List.Perm ((cands.insertionSort (leCand f)).map (fun m => m.userID))
            (cands.map (fun m => m.userID)) :=
          (List.perm_insertionSort _ _).map _
        exact hperm.nodup_iff.mpr (candidatesOf_nodup hnd)
      exact hcnd.sublist (((cands.insertionSort (leCand f)).take_sublist 2).map _)
    · rw [hres]
      intro hmem
      rcases List.mem_map.mp hmem with ⟨c, hc, hcid⟩
      have hc2 : c ∈ cands :=
        (List.perm_insertionSort (leCand f) cands).subset
          (List.take_subset 2 _ hc)
      have := (mem_candidatesOf.mp (hcands ▸ hc2)).2.2
      exact this hcid

/-- A concrete four-member roster used by the witnesses. -/
def demoTeam : List User :=
  [⟨"a", "ann", "t", true⟩, ⟨"b", "bee", "t", true⟩,
   ⟨"c", "cat", "t", true⟩, ⟨"d", "dan", "t", false⟩]

/-- A concrete review-load table: user `b` has one open review. -/
def demoLoad : String → Nat := fun id => if id = "b" then 1 else 0

/-- Witness for C1 on `demoTeam` authored by `a`. -/
theorem assignReviewers_sorted_prefix_witness :
    ∃ l : List User,
      List.Perm l (candidatesOf demoTeam "a") ∧
      l.Pairwise (ltCand demoLoad) ∧
      assignReviewers id demoTeam "a" (some demoLoad) =
        (l.take 2).map (fun c => c.userID) ∧
      (assignReviewers id demoTeam "a" (some demoLoad)).length =
        min 2 (candidatesOf demoTeam "a").length ∧
      (assignReviewers id demoTeam "a" (some demoLoad)).Nodup ∧
      "a" ∉ assignReviewers id demoTeam "a" (some demoLoad) :=
  assignReviewers_sorted_prefix id demoTeam "a" demoLoad (by decide)

/-! ### The tie-group loop of findReplacement -/

theorem tieLoop_snd_ne_nil (f : String → Nat) :
    ∀ (l : List User) (m : Option Nat) (sel : List User), sel ≠ [] →
      (tieLoop f l m sel).2 ≠ []
  | [], _, _, hsel => hsel
  | c :: cs, m, sel, hsel => by
      match m with
      | none => exact tieLoop_snd_ne_nil f cs _ [c] (by simp)
      | some mc =>
          by_cases h1 : f c.userID < mc
          · simpa [tieLoop, h1] using tieLoop_snd_ne_nil f cs _ [c] (by simp)
          · by_cases h2 : f c.userID = mc
            · simpa [tieLoop, h1, h2] using
                tieLoop_snd_ne_nil f cs _ (sel ++ [c]) (by simp)
            · simpa [tieLoop, h1, h2] using tieLoop_snd_ne_nil f cs _ sel hsel

/-- C10 core: scanning a non-empty candidate list always leaves a
non-empty tie group. -/
theorem tieGroup_ne_nil {f : String → Nat} {candidates : List User}
    (h : candidates ≠ []) : tieGroup f candidates ≠ [] := by
  match candidates with
  | [] => exact absurd rfl h
  | c :: cs => exact tieLoop_snd_ne_nil f cs _ [c] (by simp)

theorem tieLoop_snd_subset (f : String → Nat) :
    ∀ (l : List User) (m : Option Nat) (sel : List User) (x : User),
      x ∈ (tieLoop f l m sel).2 → x ∈ sel ∨ x ∈ l
  | [], _, _, _, hx => Or.inl hx
  | c :: cs, m, sel, x, hx => by
      match m with
      | none =>
          rcases tieLoop_snd_subset f cs _ [c] x hx with h | h
          · simp at h; simp [h]
          · simp [h]
      | some mc =>
          by_cases h1 : f c.userID < mc
          · simp only [tieLoop, h1, if_pos] at hx
            rcases tieLoop_snd_subset f cs _ [c] x hx with h | h
            · simp at h; simp [h]
            · simp [h]
          · by_cases h2 : f c.userID = mc
            · simp only [tieLoop] at hx
              rw [if_neg h1, if_pos h2] at hx
              rcases tieLoop_snd_subset f cs _ (sel ++ [c]) x hx with h | h
              · rcases List.mem_append.mp h with h | h
                · exact Or.inl h
                · simp at h; simp [h]
              · simp [h]
            · simp only [tieLoop, h1, h2, if_neg, if_false] at hx
              rcases tieLoop_snd_subset f cs _ sel x hx with h | h
              · exact Or.inl h
              · simp [h]

theorem tieGroup_subset {f : String → Nat} {candidates : List User} {x : User}
    (hx : x ∈ tieGroup f candidates) : x ∈ candidates := by
  match candidates with
  | [] => exact absurd hx (by simp [tieGroup, tieLoop])
  | c :: cs =>
      rcases tieLoop_snd_subset f cs _ [c] x hx with h | h
      · simp at h; simp [h]
      · simp [h]

/-! ### findReplacement: success shape and failure characterization -/

/-- A successful `findReplacement` returns the id of some replacement
candidate, on the load path and on the random fallback path alike. -/
theorem findReplacement_ok_mem {teamMembers : List User} {authorID : String}
    {currentReviewers : List String} {counts : Option (String → Nat)}
    {k : Nat} {id : String}
    (h : findReplacement teamMembers authorID currentReviewers counts k = .ok id) :
    ∃ m ∈ replacementCandidates teamMembers authorID currentReviewers,
      m.userID = id := by
  by_cases hc : (replacementCandidates teamMembers authorID currentReviewers).length = 0
  · simp [findReplacement, hc] at h
  · cases counts with
    | none =>
        simp only [findReplacement, dif_neg hc] at h
        exact ⟨_, List.get_mem _ _ _, by simpa using h⟩
    | some f =>
        by_cases hg : (tieGroup f
            (replacementCandidates teamMembers authorID currentReviewers)).length > 0
        · simp only [findReplacement, dif_neg hc, dif_pos hg] at h
          exact ⟨_, tieGroup_subset (List.get_mem _ _ _), by simpa using h⟩
        · simp only [findReplacement, dif_neg hc, dif_neg hg] at h
          exact absurd h (by simp)

/-- A non-empty candidate set makes `findReplacement` succeed. -/
theorem findReplacement_isOk {teamMembers : List User} {authorID : String}
    {currentReviewers : List String} (counts : Option (String → Nat)) (k : Nat)
    (h : replacementCandidates teamMembers authorID currentReviewers ≠ []) :
    ∃ id, findReplacement teamMembers authorID currentReviewers counts k =
      .ok id := by
  unfold findReplacement
  have hlen : ¬(replacementCandidates teamMembers authorID currentReviewers).length = 0 := by
    simpa [List.length_eq_zero] using h
  rw [dif_neg hlen]
  match counts with
  | none => exact ⟨_, rfl⟩
  | some f =>
      have hg : tieGroup f (replacementCandidates teamMembers authorID currentReviewers) ≠ [] :=
        tieGroup_ne_nil h
      have hg2 : (tieGroup f (replacementCandidates teamMembers authorID currentReviewers)).length > 0 :=
        List.length_pos.mpr hg
      simp only [dif_pos hg2]
      exact ⟨_, rfl⟩

/-- C3: a successful replacement — load-based or random fallback — is
never the author, never a current reviewer, and always an active team
member. -/
theorem findReplacement_ok_constraints (teamMembers : List User)
    (authorID : String) (currentReviewers : List String)
    (counts : Option (String → Nat)) (k : Nat) (id : String)
    (h : findReplacement teamMembers authorID currentReviewers counts k = .ok id) :
    id ≠ authorID ∧ id ∉ currentReviewers ∧
      ∃ m ∈ teamMembers, m.userID = id ∧ m.isActive = true := by
  obtain ⟨m, hm, hmid⟩ := findReplacement_ok_mem h
  obtain ⟨hmem, hact, hne, hnin⟩ := mem_replacementCandidates.mp hm
  subst hmid
  exact ⟨hne, hnin, m, hmem, rfl, hact⟩

/-- Witness for C3: on `demoTeam`, author `a`, current reviewer `b`,
the only candidate is `c` and it is returned. -/
theorem findReplacement_ok_constraints_witness :
    "c" ≠ "a" ∧ "c" ∉ ["b"] ∧
      ∃ m ∈ demoTeam, m.userID = "c" ∧ m.isActive = true :=
  findReplacement_ok_constraints demoTeam "a" ["b"] (some demoLoad) 0 "c" rfl

/-- C4: `findReplacement` fails with code NO_CANDIDATE exactly when no
team member is active and outside the excluded set. -/
theorem findReplacement_noCandidate_iff (teamMembers : List User)
    (authorID : String) (currentReviewers : List String)
    (counts : Option (String → Nat)) (k : Nat) :
    (∃ e, findReplacement teamMembers authorID currentReviewers counts k =
        .error e ∧ e.code = .errNoCandidate) ↔
      replacementCandidates teamMembers authorID currentReviewers = [] := by
  constructor
  · rintro ⟨e, he, _⟩
    by_contra hne
    obtain ⟨id, hid⟩ := findReplacement_isOk counts k hne
    rw [hid] at he
    exact Except.noConfusion he
  · intro hempty
    refine ⟨⟨.errNoCandidate, "no active replacement candidate in team"⟩, ?_, rfl⟩
    simp [findReplacement, hempty]

/-- C10: with load data available, a non-empty candidate set always
yields a non-empty tie group, so the final NO_CANDIDATE return of
`findReplacement` is unreachable: the call succeeds. -/
theorem findReplacement_final_guard_unreachable (f : String → Nat)
    (teamMembers : List User) (authorID : String)
    (currentReviewers : List String) (k : Nat)
    (h : replacementCandidates teamMembers authorID currentReviewers ≠ []) :
    tieGroup f (replacementCandidates teamMembers authorID currentReviewers) ≠ [] ∧
    ∃ id, findReplacement teamMembers authorID currentReviewers (some f) k =
      .ok id :=
  ⟨tieGroup_ne_nil h, findReplacement_isOk (some f) k h⟩

/-- Witness for C10 on `demoTeam`. -/
theorem findReplacement_final_guard_unreachable_witness :
    tieGroup demoLoad (replacementCandidates demoTeam "a" ["b"]) ≠ [] ∧
    ∃ id, findReplacement demoTeam "a" ["b"] (some demoLoad) 3 = .ok id :=
  findReplacement_final_guard_unreachable demoLoad demoTeam "a" ["b"] 3 (by decide)

/-! ### C5: merge is idempotent -/

/-- C5: merging twice equals merging once.  If the first call succeeds
with PR `pr1` and store `st1`, the second call succeeds with the very
same pair (no further state update), the resulting status is MERGED,
and the merge timestamp is set on the first OPEN-to-MERGED transition
only (an already-merged PR is returned unchanged, store untouched). -/
theorem mergePullRequest_idempotent (st : Store) (prID : String) (t1 t2 : Nat)
    (pr1 : PullRequest) (st1 : Store)
    (hw : ∀ id p, st.prs id = some p → p.pullRequestID = id)
    (h : mergePullRequest st prID t1 = .ok (pr1, st1)) :
    mergePullRequest st1 prID t2 = .ok (pr1, st1) ∧
    pr1.status = .statusMerged ∧
    ∀ pr0, st.prs prID = some pr0 →
      (pr0.status = .statusMerged → pr1 = pr0 ∧ st1 = st) ∧
      (pr0.status ≠ .statusMerged → pr1.mergedAt = some t1) := by
  cases hpr : st.prs prID with
  | none => rw [mergePullRequest, hpr] at h; exact Except.noConfusion h
  | some pr =>
      rw [mergePullRequest, hpr] at h
      simp only at h
      by_cases hst : pr.status = .statusMerged
      · rw [if_pos hst] at h
        obtain ⟨h1, h2⟩ : pr = pr1 ∧ st = st1 := by simpa using h
        subst h1; subst h2
        refine ⟨by simp [mergePullRequest, hpr, hst], hst, ?_⟩
        intro pr0 hpr0
        obtain rfl : pr = pr0 := by simpa using hpr0
        exact ⟨fun _ => ⟨rfl, rfl⟩, fun hc => absurd hst hc⟩
      · rw [if_neg hst] at h
        obtain ⟨h1, h2⟩ :
            ({ pr with status := .statusMerged, mergedAt := some t1 } : PullRequest) = pr1 ∧
              st.updatePR { pr with status := .statusMerged, mergedAt := some t1 } = st1 := by
          simpa using h
        subst h1; subst h2
        have hid : pr.pullRequestID = prID := hw prID pr hpr
        have hlook : (st.updatePR
            { pr with status := .statusMerged, mergedAt := some t1 }).prs prID =
            some { pr with status := .statusMerged, mergedAt := some t1 } := by
          simp [Store.updatePR, hid]
        refine ⟨by rw [mergePullRequest, hlook]; simp, rfl, ?_⟩
        intro pr0 hpr0
        obtain rfl : pr = pr0 := by simpa using hpr0
        exact ⟨fun hc => absurd hc hst, fun _ => rfl⟩

/-- A concrete open PR, store, and its merged version for the witnesses. -/
def demoPR : PullRequest :=
  ⟨"pr1", "fix parser speed", "a", .statusOpen, ["b", "c"], some 1, none⟩

def demoStore : Store where
  prs := fun id => if id = "pr1" then some demoPR else none
  users := fun id => demoTeam.find? (fun u => u.userID = id)
  usersByTeam := fun t => if t = "t" then demoTeam else []
  counts := some demoLoad

def mergedDemoPR : PullRequest :=
  { demoPR with status := .statusMerged, mergedAt := some 5 }

/-- Witness for C5 on `demoStore`. -/
theorem mergePullRequest_idempotent_witness :
    mergePullRequest (demoStore.updatePR mergedDemoPR) "pr1" 9 =
      .ok (mergedDemoPR, demoStore.updatePR mergedDemoPR) ∧
    mergedDemoPR.status = .statusMerged ∧
    ∀ pr0, demoStore.prs "pr1" = some pr0 →
      (pr0.status = .statusMerged →
        mergedDemoPR = pr0 ∧ demoStore.updatePR mergedDemoPR = demoStore) ∧
      (pr0.status ≠ .statusMerged → mergedDemoPR.mergedAt = some 5) :=
  mergePullRequest_idempotent demoStore "pr1" 5 9 mergedDemoPR
    (demoStore.updatePR mergedDemoPR)
    (by
      intro id p hp
      simp only [demoStore] at hp
      split at hp
      next hid =>
        cases hp
        simp [demoPR, hid]
      next =>
        exact absurd hp (by simp))
    rfl

/-! ### ReassignReviewer: success shape, error precedence, frame -/

/-- The reviewer-list update of a successful reassignment: the new id
overwrites the entry at the old id's first index (service.go:219). -/
def setReviewer (pr : PullRequest) (old newID : String) : PullRequest :=
  { pr with assignedReviewers := pr.assignedReviewers.set (pr.assignedReviewers.indexOf old) newID }

/-- Decomposition of a successful `reassignReviewer` run: the PR was
open, the old reviewer was assigned and known, the replacement came
from `findReplacement` on the old reviewer's team, and the updated PR
replaces exactly the entry at the old reviewer's first index. -/
theorem reassignReviewer_ok_shape {st : Store} {prID old : String} {k : Nat}
    {pr pr2 : PullRequest} {newID : String} {st2 : Store}
    (hpr : st.prs prID = some pr)
    (h : reassignReviewer st prID old k = .ok (pr2, newID, st2)) :
    pr.status ≠ .statusMerged ∧ old ∈ pr.assignedReviewers ∧
    (∃ u, st.users old = some u ∧
      findReplacement (st.usersByTeam u.teamName) pr.authorID
        pr.assignedReviewers st.counts k = .ok newID) ∧
    pr2 = setReviewer pr old newID ∧
    st2 = st.updatePR pr2 := by
  rw [reassignReviewer, hpr] at h
  simp only at h
  by_cases hst : pr.status = .statusMerged
  · rw [if_pos hst] at h; exact Except.noConfusion h
  · rw [if_neg hst] at h
    by_cases hmem : old ∈ pr.assignedReviewers
    · rw [if_pos hmem] at h
      cases hu : st.users old with
      | none => rw [hu] at h; exact Except.noConfusion h
      | some u =>
          rw [hu] at h
          simp only at h
          cases hfr : findReplacement (st.usersByTeam u.teamName) pr.authorID
              pr.assignedReviewers st.counts k with
          | error e => rw [hfr] at h; exact Except.noConfusion h
          | ok nid =>
              rw [hfr] at h
              simp only at h
              obtain ⟨h1, h2, h3⟩ :
                  setReviewer pr old nid = pr2 ∧ nid = newID ∧
                    st.updatePR (setReviewer pr old nid) = st2 := by
                simpa [setReviewer] using h
              subst h1; subst h2; subst h3
              exact ⟨hst, hmem, ⟨u, rfl, hfr⟩, rfl, rfl⟩
    · rw [if_neg hmem] at h; exact Except.noConfusion h

/-- C6: the failure checks of `ReassignReviewer` run in a fixed order:
missing PR (NOT_FOUND), then merged PR (PR_MERGED, regardless of the
old reviewer), then unassigned old reviewer (NOT_ASSIGNED), then unknown
old reviewer (NOT_FOUND), and finally any failure of the replacement
selection is propagated verbatim. -/
theorem reassignReviewer_error_precedence (st : Store) (prID old : String)
    (k : Nat) :
    (st.prs prID = none →
      reassignReviewer st prID old k =
        .error ⟨.errNotFound, "PR not found"⟩) ∧
    (∀ pr, st.prs prID = some pr → pr.status = .statusMerged →
      reassignReviewer st prID old k =
        .error ⟨.errPRMerged, "cannot reassign on merged PR"⟩) ∧
    (∀ pr, st.prs prID = some pr → pr.status ≠ .statusMerged →
      old ∉ pr.assignedReviewers →
      reassignReviewer st prID old k =
        .error ⟨.errNotAssigned, "reviewer is not assigned to this PR"⟩) ∧
    (∀ pr, st.prs prID = some pr → pr.status ≠ .statusMerged →
      old ∈ pr.assignedReviewers → st.users old = none →
      reassignReviewer st prID old k =
        .error ⟨.errNotFound, "old reviewer not found"⟩) ∧
    (∀ pr u e, st.prs prID = some pr → pr.status ≠ .statusMerged →
      old ∈ pr.assignedReviewers → st.users old = some u →
      findReplacement (st.usersByTeam u.teamName) pr.authorID
        pr.assignedReviewers st.counts k = .error e →
      reassignReviewer st prID old k = .error e) := by
  refine ⟨?_, ?_, ?_, ?_, ?_⟩
  · intro hnone
    rw [reassignReviewer, hnone]
  · intro pr hpr hst
    rw [reassignReviewer, hpr]
    simp [hst]
  · intro pr hpr hst hmem
    rw [reassignReviewer, hpr]
    simp [hst, hmem]
  · intro pr hpr hst hmem hu
    rw [reassignReviewer, hpr]
    simp [hst, hmem, hu]
  · intro pr u e hpr hst hmem hu hfr
    rw [reassignReviewer, hpr]
    simp [hst, hmem, hu, hfr]

/-- Witness for C6: on a merged PR the call fails with PR_MERGED even
though the named old reviewer is neither assigned nor a known user. -/
theorem reassignReviewer_error_precedence_witness :
    reassignReviewer (demoStore.updatePR mergedDemoPR) "pr1" "zz" 0 =
      .error ⟨.errPRMerged, "cannot reassign on merged PR"⟩ :=
  (reassignReviewer_error_precedence (demoStore.updatePR mergedDemoPR)
    "pr1" "zz" 0).2.1 mergedDemoPR rfl rfl

/-- C7: a successful reassignment writes the new id at the old
reviewer's exact index and changes nothing else: list length, every
other position, and all other PR fields are preserved. -/
theorem reassignReviewer_frame (st : Store) (prID old : String) (k : Nat)
    (pr pr2 : PullRequest) (newID : String) (st2 : Store)
    (hpr : st.prs prID = some pr)
    (h : reassignReviewer st prID old k = .ok (pr2, newID, st2)) :
    old ∈ pr.assignedReviewers ∧
    pr2.assignedReviewers =
      pr.assignedReviewers.set (pr.assignedReviewers.indexOf old) newID ∧
    pr2.assignedReviewers.length = pr.assignedReviewers.length ∧
    pr2.assignedReviewers[pr.assignedReviewers.indexOf old]? = some newID ∧
    (∀ j, j ≠ pr.assignedReviewers.indexOf old →
      pr2.assignedReviewers[j]? = pr.assignedReviewers[j]?) ∧
    pr2.pullRequestID = pr.pullRequestID ∧
    pr2.pullRequestName = pr.pullRequestName ∧
    pr2.authorID = pr.authorID ∧
    pr2.status = pr.status ∧
    pr2.createdAt = pr.createdAt ∧
    pr2.mergedAt = pr.mergedAt := by
  obtain ⟨hst, hmem, hfr, hpr2, hst2⟩ := reassignReviewer_ok_shape hpr h
  subst hpr2
  have hidx : pr.assignedReviewers.indexOf old < pr.assignedReviewers.length :=
    List.indexOf_lt_length.mpr hmem
  refine ⟨hmem, rfl, List.length_set _ _ _, ?_, ?_, rfl, rfl, rfl, rfl, rfl, rfl⟩
  · simpa using List.getElem?_set_self
      (l := pr.assignedReviewers) (a := newID) hidx
  · intro j hj
    exact List.getElem?_set_ne (fun hcontra => hj hcontra.symm)

/-- A roster with one more active member, so a replacement exists. -/
def bigTeam : List User := demoTeam ++ [⟨"e", "eva", "t", true⟩]

def bigStore : Store where
  prs := fun id => if id = "pr1" then some demoPR else none
  users := fun id => bigTeam.find? (fun u => u.userID = id)
  usersByTeam := fun t => if t = "t" then bigTeam else []
  counts := some demoLoad

/-- Witness for C7: reassigning `b` on `demoPR` in `bigStore` installs
`e` at index 0 and leaves everything else unchanged. -/
theorem reassignReviewer_frame_witness :
    "b" ∈ demoPR.assignedReviewers ∧
    (setReviewer demoPR "b" "e").assignedReviewers =
      demoPR.assignedReviewers.set (demoPR.assignedReviewers.indexOf "b") "e" ∧
    (setReviewer demoPR "b" "e").assignedReviewers.length =
      demoPR.assignedReviewers.length ∧
    (setReviewer demoPR "b" "e").assignedReviewers[demoPR.assignedReviewers.indexOf "b"]? =
      some "e" ∧
    (∀ j, j ≠ demoPR.assignedReviewers.indexOf "b" →
      (setReviewer demoPR "b" "e").assignedReviewers[j]? =
        demoPR.assignedReviewers[j]?) ∧
    (setReviewer demoPR "b" "e").pullRequestID = demoPR.pullRequestID ∧
    (setReviewer demoPR "b" "e").pullRequestName = demoPR.pullRequestName ∧
    (setReviewer demoPR "b" "e").authorID = demoPR.authorID ∧
    (setReviewer demoPR "b" "e").status = demoPR.status ∧
    (setReviewer demoPR "b" "e").createdAt = demoPR.createdAt ∧
    (setReviewer demoPR "b" "e").mergedAt = demoPR.mergedAt :=
  reassignReviewer_frame bigStore "pr1" "b" 0 demoPR (setReviewer demoPR "b" "e")
    "e" (bigStore.updatePR (setReviewer demoPR "b" "e")) rfl rfl

/-! ### C8: storage failure on load lookup triggers the fallback -/

/-- Behaviour of `randomSelection` for any permutation the rng shuffle
may produce: up to `2` distinct candidate ids, never an error. -/
theorem randomSelection_spec (shuffle : List User → List User)
    (cands : List User)
    (hperm : List.Perm (shuffle cands) cands)
    (hnd : (cands.map (fun m => m.userID)).Nodup) :
    (randomSelection shuffle cands 2).length = min 2 cands.length ∧
    (randomSelection shuffle cands 2).Nodup ∧
    ∀ id ∈ randomSelection shuffle cands 2,
      id ∈ cands.map (fun m => m.userID) := by
  unfold randomSelection
  by_cases hle : cands.length ≤ 2
  · rw [if_pos hle]
    refine ⟨by simp [min_eq_right hle], hnd, fun id hid => hid⟩
  · rw [if_neg hle]
    have hlen : (shuffle cands).length = cands.length := hperm.length_eq
    have hndsh : ((shuffle cands).map (fun m => m.userID)).Nodup :=
      (hperm.map _).nodup_iff.mpr hnd
    refine ⟨?_, ?_, ?_⟩
    · simp [List.length_take, hlen]
    · exact hndsh.sublist (((shuffle cands).take_sublist 2).map _)
    · intro id hid
      rcases List.mem_map.mp hid with ⟨c, hc, hcid⟩
      have : c ∈ cands := hperm.subset (List.take_subset 2 _ hc)
      exact List.mem_map.mpr ⟨c, this, hcid⟩

/-- Behaviour of `assignReviewers` for every `GetReviewCounts` outcome:
`min 2 n` distinct candidate ids. -/
theorem assignReviewers_spec (shuffle : List User → List User)
    (teamMembers : List User) (authorID : String)
    (counts : Option (String → Nat))
    (hperm : ∀ l, List.Perm (shuffle l) l)
    (hnd : (teamMembers.map (fun m => m.userID)).Nodup) :
    (assignReviewers shuffle teamMembers authorID counts).length =
      min 2 (candidatesOf teamMembers authorID).length ∧
    (assignReviewers shuffle teamMembers authorID counts).Nodup ∧
    ∀ id ∈ assignReviewers shuffle teamMembers authorID counts,
      id ∈ (candidatesOf teamMembers authorID).map (fun m => m.userID) := by
  have hcnd : ((candidatesOf teamMembers authorID).map (fun m => m.userID)).Nodup :=
    candidatesOf_nodup hnd
  by_cases h0 : (candidatesOf teamMembers authorID).length = 0
  · have he : candidatesOf teamMembers authorID = [] := List.length_eq_zero.mp h0
    simp [assignReviewers, he]
  · cases counts with
    | none =>
        have : assignReviewers shuffle teamMembers authorID none =
            randomSelection shuffle (candidatesOf teamMembers authorID) 2 := by
          simp [assignReviewers, h0]
        rw [this]
        exact randomSelection_spec shuffle _ (hperm _) hcnd
    | some f =>
        set cands := candidatesOf teamMembers authorID with hc
        have hres : assignReviewers shuffle teamMembers authorID (some f) =
            ((cands.insertionSort (leCand f)).take 2).map (fun c => c.userID) := by
          simp [assignReviewers, ← hc, h0]
        have hpermis : List.Perm (cands.insertionSort (leCand f)) cands :=
          List.perm_insertionSort _ _
        have hndis : ((cands.insertionSort (leCand f)).map (fun m => m.userID)).Nodup :=
          (hpermis.map _).nodup_iff.mpr hcnd
        refine ⟨?_, ?_, ?_⟩
        · rw [hres]
          simp [List.length_take, hpermis.length_eq]
        · rw [hres]
          exact hndis.sublist (((cands.insertionSort (leCand f)).take_sublist 2).map _)
        · rw [hres]
          intro id hid
          rcases List.mem_map.mp hid with ⟨c, hcmem, hcid⟩
          have : c ∈ cands := hpermis.subset (List.take_subset 2 _ hcmem)
          exact List.mem_map.mpr ⟨c, this, hcid⟩

/-- C8: a failing `GetReviewCounts` is not propagated.  With a
non-empty candidate set, `assignReviewers` still returns up to 2
distinct candidate ids (via the shuffle) and `findReplacement` still
succeeds with some candidate id. -/
theorem loadFailure_not_propagated (shuffle : List User → List User)
    (teamMembers : List User) (authorID : String)
    (currentReviewers : List String) (k : Nat)
    (hperm : ∀ l, List.Perm (shuffle l) l)
    (hnd : (teamMembers.map (fun m => m.userID)).Nodup)
    (h1 : candidatesOf teamMembers authorID ≠ [])
    (h2 : replacementCandidates teamMembers authorID currentReviewers ≠ []) :
    (assignReviewers shuffle teamMembers authorID none).length =
      min 2 (candidatesOf teamMembers authorID).length ∧
    (assignReviewers shuffle teamMembers authorID none).Nodup ∧
    (∀ id ∈ assignReviewers shuffle teamMembers authorID none,
      id ∈ (candidatesOf teamMembers authorID).map (fun m => m.userID)) ∧
    ∃ id, findReplacement teamMembers authorID currentReviewers none k = .ok id ∧
      id ∈ (replacementCandidates teamMembers authorID currentReviewers).map
        (fun m => m.userID) := by
  obtain ⟨hl, hn, hm⟩ :=
    assignReviewers_spec shuffle teamMembers authorID none hperm hnd
  refine ⟨hl, hn, hm, ?_⟩
  obtain ⟨id, hok⟩ := findReplacement_isOk none k h2
  obtain ⟨m, hmmem, hmid⟩ := findReplacement_ok_mem hok
  exact ⟨id, hok, List.mem_map.mpr ⟨m, hmmem, hmid⟩⟩

/-- Witness for C8 on `bigTeam` (three candidates, so the shuffle-path
of `randomSelection` is exercised with the identity shuffle). -/
theorem loadFailure_not_propagated_witness :
    (assignReviewers id bigTeam "a" none).length =
      min 2 (candidatesOf bigTeam "a").length ∧
    (assignReviewers id bigTeam "a" none).Nodup ∧
    (∀ i ∈ assignReviewers id bigTeam "a" none,
      i ∈ (candidatesOf bigTeam "a").map (fun m => m.userID)) ∧
    ∃ i, findReplacement bigTeam "a" ["b", "c"] none 7 = .ok i ∧
      i ∈ (replacementCandidates bigTeam "a" ["b", "c"]).map
        (fun m => m.userID) :=
  loadFailure_not_propagated id bigTeam "a" ["b", "c"] 7
    (fun l => List.Perm.refl l) (by decide) (by decide) (by decide)

/-! ### C9: reviewer-list invariants -/

/-- Overwriting one entry with a fresh element keeps a list
duplicate-free. -/
theorem nodup_set_of_not_mem {α : Type} {b : α} :
    ∀ {l : List α} {i : Nat}, l.Nodup → b ∉ l → (l.set i b).Nodup
  | [], _, _, _ => by simp
  | a :: l, 0, hnd, hb => by
      rcases List.nodup_cons.mp hnd with ⟨_, hl⟩
      exact List.nodup_cons.mpr
        ⟨fun hmem => hb (List.mem_cons_of_mem _ hmem), hl⟩
  | a :: l, i + 1, hnd, hb => by
      rcases List.nodup_cons.mp hnd with ⟨ha, hl⟩
      refine List.nodup_cons.mpr ⟨?_,
        nodup_set_of_not_mem hl (fun hmem => hb (List.mem_cons_of_mem _ hmem))⟩
      intro hmem
      rcases List.mem_or_eq_of_mem_set hmem with hin | heq
      · exact ha hin
      · exact hb (heq ▸ List.mem_cons_self a l)

/-- C9: with pairwise-distinct roster ids, every reviewer list the
service produces is duplicate-free, author-free, and of length at most
2 — both the initial assignment and a list surviving a successful
reassignment. -/
theorem reviewerList_invariants (shuffle : List User → List User)
    (teamMembers : List User) (authorID : String)
    (counts : Option (String → Nat)) (st : Store) (prID old : String)
    (k : Nat) :
    ((∀ l, List.Perm (shuffle l) l) →
      (teamMembers.map (fun m => m.userID)).Nodup →
      (assignReviewers shuffle teamMembers authorID counts).Nodup ∧
      (assignReviewers shuffle teamMembers authorID counts).length ≤ 2 ∧
      authorID ∉ assignReviewers shuffle teamMembers authorID counts) ∧
    (∀ pr pr2 newID st2, st.prs prID = some pr →
      pr.assignedReviewers.Nodup →
      pr.authorID ∉ pr.assignedReviewers →
      pr.assignedReviewers.length ≤ 2 →
      reassignReviewer st prID old k = .ok (pr2, newID, st2) →
      pr2.assignedReviewers.Nodup ∧
      pr2.authorID ∉ pr2.assignedReviewers ∧
      pr2.assignedReviewers.length ≤ 2) := by
  constructor
  · intro hperm hnd
    obtain ⟨hl, hn, hm⟩ :=
      assignReviewers_spec shuffle teamMembers authorID counts hperm hnd
    refine ⟨hn, by rw [hl]; exact min_le_left _ _, ?_⟩
    intro hmem
    rcases List.mem_map.mp (hm _ hmem) with ⟨c, hc, hcid⟩
    exact (mem_candidatesOf.mp hc).2.2 hcid
  · intro pr pr2 newID st2 hpr hnd hauthor hlen h
    obtain ⟨_, hmem, ⟨u, _, hfr⟩, hpr2, _⟩ := reassignReviewer_ok_shape hpr h
    obtain ⟨m, hmmem, hmid⟩ := findReplacement_ok_mem hfr
    obtain ⟨_, _, hne, hnin⟩ := mem_replacementCandidates.mp hmmem
    subst hpr2
    have hnewnot : newID ∉ pr.assignedReviewers := hmid ▸ hnin
    have hnewne : newID ≠ pr.authorID := hmid ▸ hne
    refine ⟨nodup_set_of_not_mem hnd hnewnot, ?_, ?_⟩
    · intro hcontra
      rcases List.mem_or_eq_of_mem_set hcontra with hin | heq
      · exact hauthor hin
      · exact hnewne heq.symm
    · simpa [setReviewer] using hlen

/-- Witness for C9: both conjuncts at a concrete instantiation — the
initial assignment on `bigTeam` and the reassignment of `b` in
`bigStore`. -/
theorem reviewerList_invariants_witness :
    ((assignReviewers id bigTeam "a" (some demoLoad)).Nodup ∧
      (assignReviewers id bigTeam "a" (some demoLoad)).length ≤ 2 ∧
      "a" ∉ assignReviewers id bigTeam "a" (some demoLoad)) ∧
    ((setReviewer demoPR "b" "e").assignedReviewers.Nodup ∧
      (setReviewer demoPR "b" "e").authorID ∉
        (setReviewer demoPR "b" "e").assignedReviewers ∧
      (setReviewer demoPR "b" "e").assignedReviewers.length ≤ 2) :=
  And.intro
    ((reviewerList_invariants id bigTeam "a" (some demoLoad) bigStore "pr1" "b" 0).1
      (fun l => List.Perm.refl l) (by decide))
    ((reviewerList_invariants id bigTeam "a" (some demoLoad) bigStore "pr1" "b" 0).2
      demoPR (setReviewer demoPR "b" "e") "e"
      (bigStore.updatePR (setReviewer demoPR "b" "e"))
      rfl (by decide) (by decide) (by decide) rfl)

end AvitoReview
